import Mathlib

namespace FraudDemo

/-! ### Definitions: the embedded data model and operations -/

/-- Rounding to 2 decimal places, modelling Python `round(x, 2)`. -/
def round2 (q : ℚ) : ℚ := (round (q * 100) : ℚ) / 100

/-- Rounding to 4 decimal places, modelling Python `round(x, 4)`. -/
def round4 (q : ℚ) : ℚ := (round (q * 10000) : ℚ) / 10000

/-- Python truthiness of a nullable boolean column: `None` and `False`
are falsy, `True` is truthy. -/
def truthy : Option Bool → Bool
  | some true => true
  | _ => false

/-- One row of the claim-context query in `calculate_claim_risk_score`
(fraud_detection.py lines 244-266).  Every `RETURN` alias is a key of the
row; nullable columns are `Option`. -/
structure ClaimContextRow where
  claimant_name : Option String
  claimant_id : Option String
  amount : Option ℚ
  injury : Option String
  is_fraud : Option Bool
  ring_id : Option ℕ
  shop_name : Option String
  shop_flagged : Option Bool
  provider_name : Option String
  provider_flagged : Option Bool
  attorney_name : Option String
  attorney_flagged : Option Bool
  witness_name : Option String
  witness_flagged : Option Bool
  phone_number : Option String
  phone_flagged : Option Bool
  shop_claim_count : ℕ
deriving DecidableEq

/-- The report produced by `calculate_claim_risk_score`
(fraud_detection.py lines 295-303). -/
structure ClaimRiskReport where
  claim_id : String
  claimant_name : Option String
  risk_score : ℕ
  risk_level : String
  risk_factors : List String
  mitigating_factors : List String
  is_known_fraud : Option Bool
deriving DecidableEq

/-- A Python exception value raised on the claim-scoring path: a
`KeyError` carrying the offending key, rendered as a string. -/
inductive PyError where
  | keyError (key : String)
deriving DecidableEq

/-- One entry of the agraph `nodes` list that `neo4j_utils.run_query`
builds (neo4j_utils.py lines 39-46); the open `properties` bag is
omitted — no reachable trace of the embedded callers ever constructs a
node entry, because a record without a `path` column raises first. -/
structure AgraphNode where
  id : String
  label : String
  type : String
  is_fraud : Bool
  flagged : Bool
deriving DecidableEq

/-- One entry of the agraph `edges` list (neo4j_utils.py lines 48-53). -/
structure AgraphEdge where
  source : String
  target : String
  type : String
deriving DecidableEq

/-- The agraph-format dictionary `neo4j_utils.run_query` returns
(line 55): the two keys `nodes` and `edges`. -/
structure AgraphResult where
  nodes : List AgraphNode
  edges : List AgraphEdge
deriving DecidableEq

/-- Embedding of `neo4j_utils.run_query` (lines 21-55) on the queries
that `fraud_detection.py` issues.  Not connected: returns `None`
(line 23).  Connected: the record loop reads `record['path']` (line 33),
and no query issued by fraud_detection.py returns a `path` alias, so the
first record raises `KeyError`; with no records the loop body never runs
and the empty agraph dictionary is returned (line 55). -/
def run_query (connected : Bool) (records : List ClaimContextRow) :
    Except PyError (Option AgraphResult) :=
  if connected = false then .ok none
  else
    match records with
    | [] => .ok (some { nodes := [], edges := [] })
    | _ :: _ => .error (.keyError "path")

/-- Python truthiness of the value `run_query` returns: `None` is falsy;
the agraph dictionary always holds its two keys, so it is truthy even
when both of its lists are empty. -/
def queryResultTruthy : Option AgraphResult → Bool
  | none => false
  | some _ => true

/-- Python `context[0]` when `context` is the agraph dictionary: its
keys are the strings `nodes` and `edges`, so an integer subscript raises
`KeyError` — this is what `ctx = context[0]` (fraud_detection.py
line 271) hits. -/
def agraph_getitem (_d : AgraphResult) (i : ℕ) :
    Except PyError ClaimContextRow :=
  .error (.keyError (toString i))

/-- Embedding of the scoring body of `calculate_claim_risk_score`
(fraud_detection.py lines 240-303) as a function of the claim-context
rows delivered to its `context` variable: a falsy context (`none` or the
empty list) returns the absent result, otherwise the first row is
scored. -/
def calculate_claim_risk_score (claim_id : String)
    (context : Option (List ClaimContextRow)) : Option ClaimRiskReport :=
  match context with
  | none => none
  | some [] => none
  | some (ctx :: _) =>
    let s1 : ℕ := if truthy ctx.shop_flagged then 25 else 0
    let s2 : ℕ := if truthy ctx.provider_flagged then 25 else 0
    let s3 : ℕ := if truthy ctx.attorney_flagged then 20 else 0
    let s4 : ℕ := if truthy ctx.phone_flagged then 30 else 0
    let risk_score := s1 + s2 + s3 + s4
    let risk_factors :=
      (if truthy ctx.shop_flagged then ["Repair shop is flagged"] else []) ++
      (if truthy ctx.provider_flagged then ["Medical provider is flagged"] else []) ++
      (if truthy ctx.attorney_flagged then ["Attorney is flagged"] else []) ++
      (if truthy ctx.phone_flagged then
        ["Phone number associated with multiple identities"] else [])
    let mitigating_factors :=
      if risk_score < 10 ∧ truthy ctx.is_fraud = false then
        ["Isolated from known fraud rings",
         "Service providers have normal claim volumes"]
      else []
    some
      { claim_id := claim_id
        claimant_name := ctx.claimant_name
        risk_score := risk_score
        risk_level :=
          if risk_score ≥ 60 then "HIGH"
          else if risk_score ≥ 30 then "MEDIUM" else "LOW"
        risk_factors := risk_factors
        mitigating_factors := mitigating_factors
        is_known_fraud := ctx.is_fraud }

/-- End-to-end behaviour of `calculate_claim_risk_score` with its
`context` coming from the staged `neo4j_utils.run_query`: an exception
raised by the query propagates to the caller; `if not context` (line
268) returns the absent result exactly when the context is falsy, which
only `None` is; a truthy context — always an agraph dictionary — reaches
`ctx = context[0]` (line 271), whose outcome feeds the scoring body. -/
def calculate_claim_risk_score_from_source (claim_id : String)
    (connected : Bool) (records : List ClaimContextRow) :
    Except PyError (Option ClaimRiskReport) :=
  match run_query connected records with
  | .error e => .error e
  | .ok context =>
    if queryResultTruthy context = false then .ok none
    else
      match context with
      | none => .ok none
      | some d =>
        match agraph_getitem d 0 with
        | .error e => .error e
        | .ok ctx => .ok (calculate_claim_risk_score claim_id (some [ctx]))

/-- One row of the repair-shop clustering query (fraud_detection.py lines
164-175); the query clause `WHERE size(claimants) > 3` guards the rows. -/
structure ShopPatternRow where
  entity : Option String
  entity_id : Option String
  connected_claimants : ℕ
  is_flagged : Option Bool
deriving DecidableEq

/-- One row of the medical-mill query (lines 189-198); guarded by
`WHERE size(claimants) > 4`. -/
structure MedicalPatternRow where
  entity : Option String
  entity_id : Option String
  connected_claimants : ℕ
  is_flagged : Option Bool
deriving DecidableEq

/-- One row of the attorney-steering query (lines 212-223); guarded by
`WHERE size(claimants) > 4`. -/
structure AttorneyPatternRow where
  entity : Option String
  entity_id : Option String
  connected_claimants : ℕ
  unique_shops : ℕ
  is_flagged : Option Bool
deriving DecidableEq

/-- A pattern match appended to `patterns_found`. -/
structure PatternMatch where
  pattern_type : String
  entity : Option String
  entity_id : Option String
  connected_count : ℕ
  flagged : Option Bool
  description : String
  risk_level : String
deriving DecidableEq

/-- The match built from a repair-shop clustering row
(fraud_detection.py lines 177-186). -/
def shopMatch (p : ShopPatternRow) : PatternMatch :=
  { pattern_type := "Repair Shop Clustering"
    entity := p.entity
    entity_id := p.entity_id
    connected_count := p.connected_claimants
    flagged := p.is_flagged
    description :=
      toString p.connected_claimants ++ " unrelated claimants using same repair shop"
    risk_level := if p.connected_claimants > 5 then "HIGH" else "MEDIUM" }

/-- The match built from a medical-mill row (lines 200-209). -/
def medicalMatch (p : MedicalPatternRow) : PatternMatch :=
  { pattern_type := "Medical Mill"
    entity := p.entity
    entity_id := p.entity_id
    connected_count := p.connected_claimants
    flagged := p.is_flagged
    description :=
      toString p.connected_claimants ++ " claimants treated by same provider"
    risk_level := "HIGH" }

/-- The shop ratio `p.unique_shops / max(p.connected_claimants, 1)`
computed for an attorney-steering row (line 226), in exact rational
arithmetic. -/
def shopRatio (p : AttorneyPatternRow) : ℚ :=
  (p.unique_shops : ℚ) / (max p.connected_claimants 1 : ℕ)

/-- The match built from an attorney-steering row (lines 225-235). -/
def attorneyMatch (p : AttorneyPatternRow) : PatternMatch :=
  { pattern_type := "Attorney Steering"
    entity := p.entity
    entity_id := p.entity_id
    connected_count := p.connected_claimants
    flagged := p.is_flagged
    description :=
      "Represents " ++ toString p.connected_claimants ++ " claimants from " ++
        toString p.unique_shops ++ " shops"
    risk_level := if shopRatio p < 3 / 10 then "HIGH" else "MEDIUM" }

/-- Embedding of `detect_collusion_patterns` (fraud_detection.py lines
157-237), as a function of the three query result sets. -/
def detect_collusion_patterns (shopRows : List ShopPatternRow)
    (medicalRows : List MedicalPatternRow)
    (attorneyRows : List AttorneyPatternRow) : List PatternMatch :=
  shopRows.map shopMatch ++ medicalRows.map medicalMatch ++
    attorneyRows.map attorneyMatch

/-- The in-memory undirected graph built by `build_networkx_graph`:
a finite node set, a finite set of undirected edges (self-loops allowed,
as in `networkx.Graph`), and the node attributes the analytics read.
Attributes of ids outside `nodes` are never consulted by the code. -/
structure Graph where
  nodes : Finset ℕ
  edges : Finset (Sym2 ℕ)
  label : ℕ → Option String
  name : ℕ → Option String
  flagged : ℕ → Bool
  ring_id : ℕ → Option ℕ
  is_fraud : ℕ → Bool
  rel_type : Sym2 ℕ → Option String

/-- Adjacency: an undirected edge between `a` and `b` is present. -/
def Adj (G : Graph) (a b : ℕ) : Prop := s(a, b) ∈ G.edges

instance (G : Graph) (a b : ℕ) : Decidable (Adj G a b) :=
  inferInstanceAs (Decidable (s(a, b) ∈ G.edges))

/-- One round of breadth-first expansion: add every node of the graph
adjacent to the current set. -/
def expand (G : Graph) (s : Finset ℕ) : Finset ℕ :=
  s ∪ G.nodes.filter (fun b => ∃ a ∈ s, Adj G a b)

/-- The set of nodes reachable from `v`, computed by saturating the
expansion (at most `G.nodes.card` rounds are needed). -/
def reachSet (G : Graph) (v : ℕ) : Finset ℕ :=
  (expand G)^[G.nodes.card] {v}

/-- The elements of a finite set of naturals, enumerated in ascending
order as a list. -/
def nodeList (s : Finset ℕ) : List ℕ :=
  (List.range (s.sup id + 1)).filter (fun a => a ∈ s)

/-- The connected components of the undirected graph, one entry per
component, modelling `nx.connected_components` (fraud_detection.py
line 56). -/
def components (G : Graph) : List (Finset ℕ) :=
  ((nodeList G.nodes).map (reachSet G)).dedup

/-- One undirected step between two nodes of the graph. -/
def Step (G : Graph) (a b : ℕ) : Prop :=
  a ∈ G.nodes ∧ b ∈ G.nodes ∧ Adj G a b

/-- Reachability inside the graph: the reflexive-transitive closure of
single undirected steps.  This is the mathematical (specification-side)
notion of connectivity. -/
def Reach (G : Graph) : ℕ → ℕ → Prop :=
  Relation.ReflTransGen (Step G)

/-- Specification-side definition: `c` is a connected component of the
undirected graph, namely the set of all nodes reachable from some
node `v`. -/
def IsComponent (G : Graph) (c : Finset ℕ) : Prop :=
  ∃ v ∈ G.nodes, ∀ u, u ∈ c ↔ u ∈ G.nodes ∧ Reach G v u

/-- Number of community members whose `flagged` attribute is truthy
(fraud_detection.py line 95). -/
def flaggedCount (G : Graph) (c : Finset ℕ) : ℕ :=
  (c.filter (fun n => G.flagged n)).card

/-- Number of community members whose `is_fraud` attribute is truthy
(line 99). -/
def fraudCount (G : Graph) (c : Finset ℕ) : ℕ :=
  (c.filter (fun n => G.is_fraud n)).card

/-- Number of edges of `G.subgraph(c)`: edges of `G` with both endpoints
in `c` (intersected with the node set, as `networkx` subgraphs are). -/
def internalEdges (G : Graph) (c : Finset ℕ) : ℕ :=
  (G.edges.filter (fun e => e ∈ (c ∩ G.nodes).sym2)).card

/-- Embedding of `nx.density` on `G.subgraph(c)`: `0` when the subgraph
has no edges or at most one node, otherwise `2 * m / (n * (n - 1))`. -/
def nxDensity (G : Graph) (c : Finset ℕ) : ℚ :=
  let n := (c ∩ G.nodes).card
  let m := internalEdges G c
  if m = 0 ∨ n ≤ 1 then 0
  else (m : ℚ) / ((n : ℚ) * ((n : ℚ) - 1)) * 2

/-- Factor 1 of the community risk score: flagged entities, capped at 30
(fraud_detection.py lines 94-96). -/
def flaggedFactor (G : Graph) (c : Finset ℕ) : ℚ :=
  min ((flaggedCount G c : ℚ) * 10) 30

/-- Factor 2: known fraud indicators, capped at 40 (lines 98-100). -/
def fraudFactor (G : Graph) (c : Finset ℕ) : ℚ :=
  min ((fraudCount G c : ℚ) * 5) 40

/-- Factor 3: network density scaled by 20, not capped (lines 102-109). -/
def densityFactor (G : Graph) (c : Finset ℕ) : ℚ :=
  if 1 < c.card then nxDensity G c * 20 else 0

/-- Factor 4: size bonus for medium communities (lines 111-115). -/
def sizeBonus (c : Finset ℕ) : ℚ :=
  if 5 ≤ c.card ∧ c.card ≤ 20 then 10
  else if 20 < c.card then 5 else 0

/-- Embedding of `calculate_community_risk_score` (fraud_detection.py
lines 87-117).  The `try/except` around the density factor is dead code
for a well-formed subgraph (the `nx.density` guards already avoid
division by zero), so the density factor is its direct value. -/
def calculate_community_risk_score (G : Graph) (community : Finset ℕ) : ℚ :=
  if community.card < 2 then 0
  else
    round2 (flaggedFactor G community + fraudFactor G community +
      densityFactor G community + sizeBonus community)

/-- One entry of the `suspicious_communities` list built by
`detect_communities` (fraud_detection.py lines 71-79). -/
structure CommunityReport where
  community_id : ℕ
  size : ℕ
  members : Finset ℕ
  flagged_count : ℕ
  fraud_count : ℕ
  node_types : Multiset String
  risk_score : ℚ
deriving DecidableEq

/-- The report record built for a retained community `c` found at
component index `i`. -/
def mkReport (G : Graph) (i : ℕ) (c : Finset ℕ) : CommunityReport :=
  { community_id := i
    size := c.card
    members := c
    flagged_count := flaggedCount G c
    fraud_count := fraudCount G c
    node_types := c.val.map (fun n => (G.label n).getD "Unknown")
    risk_score := calculate_community_risk_score G c }

/-- Embedding of `detect_communities` (fraud_detection.py lines 48-84):
enumerate the connected components, keep those with at least 4 members,
build a report for each, and sort by risk score descending. -/
def detect_communities (G : Graph) : List CommunityReport :=
  (((components G).enum.filter (fun p => 4 ≤ p.2.card)).map
      (fun p => mkReport G p.1 p.2)).insertionSort
    (fun a b => b.risk_score ≤ a.risk_score)

/-- A sample graph: a path on the four nodes 0-1-2-3, no attributes. -/
def pathGraph4 : Graph :=
  { nodes := {0, 1, 2, 3}
    edges := {s(0, 1), s(1, 2), s(2, 3)}
    label := fun _ => none
    name := fun _ => none
    flagged := fun _ => false
    ring_id := fun _ => none
    is_fraud := fun _ => false
    rel_type := fun _ => none }

/-- A single node, flagged and marked fraudulent. -/
def flaggedSingletonGraph : Graph :=
  { nodes := {7}
    edges := ∅
    label := fun _ => none
    name := fun _ => none
    flagged := fun _ => true
    ring_id := fun _ => none
    is_fraud := fun _ => true
    rel_type := fun _ => none }

/-- The community risk-score formula exactly as the spec states it
(spec section 4.2): capped flagged and fraud factors, edge density
`2 * m / (n * (n - 1))` for `n ≥ 2` scaled by 20, size bonus, and the
unclamped sum rounded to 2 decimal places. -/
def specRiskScore (fc fd m n : ℕ) : ℚ :=
  round2 (min ((fc : ℚ) * 10) 30 + min ((fd : ℚ) * 5) 40 +
    (if 2 ≤ n then (2 * m : ℚ) / ((n : ℚ) * ((n : ℚ) - 1)) else 0) * 20 +
    (if 5 ≤ n ∧ n ≤ 20 then 10 else if 20 < n then 5 else 0))

/-- The path graph with every node flagged. -/
def pathGraph4Flagged : Graph :=
  { pathGraph4 with flagged := fun _ => true }

/-- Two nodes joined by an edge, each carrying a self-loop. -/
def loopGraph2 : Graph :=
  { nodes := {0, 1}
    edges := {s(0, 1), s(0, 0), s(1, 1)}
    label := fun _ => none
    name := fun _ => none
    flagged := fun _ => false
    ring_id := fun _ => none
    is_fraud := fun _ => false
    rel_type := fun _ => none }

/-- A context row whose repair shop and claimant phone are flagged, with
no linked attorney or medical provider. -/
def ctxShopPhone : ClaimContextRow :=
  { claimant_name := some "John Smith"
    claimant_id := some "C-001"
    amount := some 12000
    injury := none
    is_fraud := none
    ring_id := none
    shop_name := some "Apex Auto Body"
    shop_flagged := some true
    provider_name := none
    provider_flagged := none
    attorney_name := none
    attorney_flagged := none
    witness_name := none
    witness_flagged := none
    phone_number := some "555-0100"
    phone_flagged := some true
    shop_claim_count := 3 }

/-- A repair shop row with 6 connected claimants and an attorney row
with 5 claimants from 1 shop. -/
def shopRow6 : ShopPatternRow :=
  { entity := some "Apex Auto Body"
    entity_id := some "RS-01"
    connected_claimants := 6
    is_flagged := some true }

def attorneyRow51 : AttorneyPatternRow :=
  { entity := some "Lawyer Saul"
    entity_id := some "ATT-01"
    connected_claimants := 5
    unique_shops := 1
    is_flagged := some false }

/-- A node record returned by the all-nodes query (fraud_detection.py
lines 19-24): every alias is present, nullable values are `Option`. -/
structure NodeRec where
  id : ℕ
  label : Option String
  name : Option String
  flagged : Option Bool
  ring_id : Option ℕ
  is_fraud : Option Bool
deriving DecidableEq

/-- An edge record returned by the all-relationships query (lines
35-39); `source` or `target` is `none` when the endpoint id is null. -/
structure EdgeRec where
  source : Option ℕ
  target : Option ℕ
  rel_type : String
deriving DecidableEq

/-- Python `x or d` for an optional string: falls back to `d` when `x`
is `None` or empty. -/
def pyNameOr (o : Option String) (d : String) : String :=
  match o with
  | some s => if s = "" then d else s
  | none => d

/-- The graph with no nodes, no edges and no attributes. -/
def emptyGraph : Graph :=
  { nodes := ∅
    edges := ∅
    label := fun _ => none
    name := fun _ => none
    flagged := fun _ => false
    ring_id := fun _ => none
    is_fraud := fun _ => false
    rel_type := fun _ => none }

/-- Embedding of `G.add_node(...)` for one node record (fraud_detection.py lines
26-32): inserts the id and stores the attributes, the name falling back
to the id. -/
def add_node (G : Graph) (r : NodeRec) : Graph :=
  { G with
    nodes := insert r.id G.nodes
    label := fun n => if n = r.id then r.label else G.label n
    name := fun n =>
      if n = r.id then some (pyNameOr r.name (toString r.id)) else G.name n
    flagged := fun n => if n = r.id then truthy r.flagged else G.flagged n
    ring_id := fun n => if n = r.id then r.ring_id else G.ring_id n
    is_fraud := fun n => if n = r.id then truthy r.is_fraud else G.is_fraud n }

/-- Embedding of `G.add_edge(a, b, rel_type=rel)`: inserts the undirected edge and,
as `networkx` does, both endpoints into the node set. -/
def add_edge (G : Graph) (a b : ℕ) (rel : String) : Graph :=
  { G with
    nodes := insert a (insert b G.nodes)
    edges := insert s(a, b) G.edges
    rel_type := fun e => if e = s(a, b) then some rel else G.rel_type e }

/-- Processing of one edge record (fraud_detection.py lines 41-43): the
edge is added when both endpoint ids are truthy (non-null), otherwise
the record is skipped. -/
def add_edge_rec (G : Graph) (r : EdgeRec) : Graph :=
  match r.source, r.target with
  | some a, some b => add_edge G a b r.rel_type
  | _, _ => G

/-- The undirected edge an edge record contributes, `none` when an
endpoint id is null. -/
def edgeOf (r : EdgeRec) : Option (Sym2 ℕ) :=
  match r.source, r.target with
  | some a, some b => some s(a, b)
  | _, _ => none

/-- Embedding of `build_networkx_graph` (fraud_detection.py lines
12-45), as a function of the two record streams. -/
def build_networkx_graph (nodeRecords : List NodeRec)
    (edgeRecords : List EdgeRec) : Graph :=
  edgeRecords.foldl add_edge_rec (nodeRecords.foldl add_node emptyGraph)

/-- Preservation of the endpoints-in-nodes invariant through the folds. -/
def EdgesWf (G : Graph) : Prop :=
  ∀ e ∈ G.edges, ∀ x ∈ e, x ∈ G.nodes

/-- A single node record with id 0 and an edge record between the
unknown ids 5 and 6. -/
def nodeRecA : NodeRec :=
  { id := 0
    label := some "Claimant"
    name := some "John Smith"
    flagged := some false
    ring_id := none
    is_fraud := some false }

def edgeRec56 : EdgeRec :=
  { source := some 5
    target := some 6
    rel_type := "FILED" }

/-- The `networkx` degree of a node of `nx.Graph`: the number of
incident edges, a self-loop counting twice. -/
def degree (G : Graph) (v : ℕ) : ℕ :=
  (G.edges.filter (fun e => v ∈ e)).card + (if s(v, v) ∈ G.edges then 1 else 0)

/-- Embedding of `nx.degree_centrality`: every node of a graph with at
most one node gets 1; otherwise the degree divided by `n - 1`. -/
def degree_centrality (G : Graph) (v : ℕ) : ℚ :=
  if G.nodes.card ≤ 1 then 1
  else (degree G v : ℚ) / ((G.nodes.card : ℚ) - 1)

/-- One entry of the `results` list built by `calculate_node_centrality`
(fraud_detection.py lines 139-151). -/
structure NodeCentralityRecord where
  id : ℕ
  name : String
  type : String
  degree_centrality : ℚ
  betweenness_centrality : ℚ
  combined_score : ℚ
  flagged : Bool
  is_fraud : Bool
deriving DecidableEq

/-- The record built for one node; `bw` is the betweenness map returned
by the (sampled, possibly failing and then all-zero) betweenness
computation, an input of the embedding. -/
def mkCentralityRecord (G : Graph) (bw : ℕ → ℚ) (v : ℕ) :
    NodeCentralityRecord :=
  { id := v
    name := pyNameOr (G.name v) (toString v)
    type := (G.label v).getD "Unknown"
    degree_centrality := round4 (degree_centrality G v)
    betweenness_centrality := round4 (bw v)
    combined_score := round4 (degree_centrality G v * (2 / 5) + bw v * (3 / 5))
    flagged := G.flagged v
    is_fraud := G.is_fraud v }

/-- Embedding of `calculate_node_centrality` (fraud_detection.py lines
120-154): one record per node, sorted by combined score descending. -/
def calculate_node_centrality (G : Graph) (bw : ℕ → ℚ) :
    List NodeCentralityRecord :=
  ((nodeList G.nodes).map (mkCentralityRecord G bw)).insertionSort
    (fun a b => b.combined_score ≤ a.combined_score)

/-- A graph with a single node. -/
def singletonGraph : Graph :=
  { nodes := {0}
    edges := ∅
    label := fun _ => none
    name := fun _ => none
    flagged := fun _ => false
    ring_id := fun _ => none
    is_fraud := fun _ => false
    rel_type := fun _ => none }

/-- Two nodes, one edge between them, plus a self-loop on node 0. -/
def selfLoopGraph : Graph :=
  { nodes := {0, 1}
    edges := {s(0, 0), s(0, 1)}
    label := fun _ => none
    name := fun _ => none
    flagged := fun _ => false
    ring_id := fun _ => none
    is_fraud := fun _ => false
    rel_type := fun _ => none }

/-- The complete graph on the nodes 0, 1, 2, 3. -/
def completeGraph4 : Graph :=
  { nodes := {0, 1, 2, 3}
    edges := {s(0, 1), s(0, 2), s(0, 3), s(1, 2), s(1, 3), s(2, 3)}
    label := fun _ => none
    name := fun _ => none
    flagged := fun _ => false
    ring_id := fun _ => none
    is_fraud := fun _ => false
    rel_type := fun _ => none }

/-! ### Theorems -/

theorem adj_symm {G : Graph} {a b : ℕ} (h : Adj G a b) : Adj G b a := by
  unfold Adj at h ⊢
  rwa [Sym2.eq_swap]

theorem step_symm (G : Graph) : Symmetric (Step G) := by
  rintro a b ⟨ha, hb, hadj⟩
  exact ⟨hb, ha, adj_symm hadj⟩

theorem reach_symm {G : Graph} {a b : ℕ} (h : Reach G a b) : Reach G b a :=
  Relation.ReflTransGen.symmetric (step_symm G) h

theorem subset_expand (G : Graph) (s : Finset ℕ) : s ⊆ expand G s :=
  Finset.subset_union_left

theorem mem_expand {G : Graph} {s : Finset ℕ} {u : ℕ} :
    u ∈ expand G s ↔ u ∈ s ∨ (u ∈ G.nodes ∧ ∃ a ∈ s, Adj G a u) := by
  simp [expand, Finset.mem_union, Finset.mem_filter]

theorem mem_singleton_iterate (G : Graph) (v : ℕ) :
    ∀ k, v ∈ (expand G)^[k] {v} := by
  intro k
  induction k with
  | zero => exact Finset.mem_singleton_self v
  | succ k ih =>
    rw [Function.iterate_succ_apply']
    exact subset_expand G _ ih

theorem iterate_sound {G : Graph} {v : ℕ} (hv : v ∈ G.nodes) :
    ∀ k, ∀ u ∈ (expand G)^[k] {v}, u ∈ G.nodes ∧ Reach G v u := by
  intro k
  induction k with
  | zero =>
    intro u hu
    rw [Function.iterate_zero_apply, Finset.mem_singleton] at hu
    subst hu
    exact ⟨hv, Relation.ReflTransGen.refl⟩
  | succ k ih =>
    intro u hu
    rw [Function.iterate_succ_apply'] at hu
    rcases mem_expand.mp hu with h | ⟨hun, a, ha, hadj⟩
    · exact ih u h
    · obtain ⟨han, hreach⟩ := ih a ha
      exact ⟨hun, hreach.tail ⟨han, hun, hadj⟩⟩

theorem iterate_subset_nodes {G : Graph} {v : ℕ} (hv : v ∈ G.nodes) (k : ℕ) :
    (expand G)^[k] {v} ⊆ G.nodes :=
  fun u hu => (iterate_sound hv k u hu).1

theorem iterate_fixed_of_eq {G : Graph} {v : ℕ} {k : ℕ}
    (h : (expand G)^[k + 1] {v} = (expand G)^[k] {v}) :
    ∀ m, (expand G)^[k + m] {v} = (expand G)^[k] {v} := by
  rw [Function.iterate_succ_apply'] at h
  intro m
  induction m with
  | zero => rfl
  | succ m ih =>
    rw [show k + (m + 1) = (k + m) + 1 by omega, Function.iterate_succ_apply', ih]
    exact h

theorem iterate_card_growth {G : Graph} {v : ℕ} :
    ∀ k, (∀ j < k, (expand G)^[j + 1] {v} ≠ (expand G)^[j] {v}) →
      k + 1 ≤ ((expand G)^[k] {v}).card := by
  intro k
  induction k with
  | zero =>
    intro _
    simp
  | succ k ih =>
    intro h
    have hk : k + 1 ≤ ((expand G)^[k] {v}).card :=
      ih fun j hj => h j (by omega)
    have hsub : (expand G)^[k] {v} ⊆ (expand G)^[k + 1] {v} := by
      rw [Function.iterate_succ_apply']
      exact subset_expand G _
    have hne : (expand G)^[k + 1] {v} ≠ (expand G)^[k] {v} := h k (by omega)
    have hlt : ((expand G)^[k] {v}).card < ((expand G)^[k + 1] {v}).card :=
      Finset.card_lt_card (Finset.ssubset_iff_subset_ne.mpr ⟨hsub, fun he => hne he.symm⟩)
    omega

theorem expand_reachSet {G : Graph} {v : ℕ} (hv : v ∈ G.nodes) :
    expand G (reachSet G v) = reachSet G v := by
  obtain ⟨j, hj, heq⟩ :
      ∃ j < G.nodes.card + 1, (expand G)^[j + 1] {v} = (expand G)^[j] {v} := by
    by_contra hcon
    push_neg at hcon
    have h1 := iterate_card_growth (G := G) (v := v) (G.nodes.card + 1) hcon
    have h2 := Finset.card_le_card (iterate_subset_nodes hv (G.nodes.card + 1))
    omega
  have hfix := iterate_fixed_of_eq heq
  have hN : (expand G)^[G.nodes.card] {v} = (expand G)^[j] {v} := by
    have h := hfix (G.nodes.card - j)
    rwa [show j + (G.nodes.card - j) = G.nodes.card by omega] at h
  have hN1 : (expand G)^[G.nodes.card + 1] {v} = (expand G)^[j] {v} := by
    have h := hfix (G.nodes.card + 1 - j)
    rwa [show j + (G.nodes.card + 1 - j) = G.nodes.card + 1 by omega] at h
  show expand G ((expand G)^[G.nodes.card] {v}) = (expand G)^[G.nodes.card] {v}
  exact (Function.iterate_succ_apply' (expand G) G.nodes.card {v}).symm.trans
    (hN1.trans hN.symm)

theorem reach_mem_reachSet {G : Graph} {v u : ℕ} (hv : v ∈ G.nodes)
    (h : Reach G v u) : u ∈ reachSet G v := by
  induction h with
  | refl => exact mem_singleton_iterate G v _
  | tail hab hstep ih =>
    rw [← expand_reachSet hv]
    exact mem_expand.mpr (Or.inr ⟨hstep.2.1, _, ih, hstep.2.2⟩)

theorem mem_reachSet_iff {G : Graph} {v u : ℕ} (hv : v ∈ G.nodes) :
    u ∈ reachSet G v ↔ u ∈ G.nodes ∧ Reach G v u :=
  ⟨iterate_sound hv _ u, fun h => reach_mem_reachSet hv h.2⟩

theorem reachSet_eq_of_mem {G : Graph} {v u : ℕ} (hv : v ∈ G.nodes)
    (hu : u ∈ reachSet G v) : reachSet G u = reachSet G v := by
  obtain ⟨hun, hvu⟩ := (mem_reachSet_iff hv).mp hu
  ext w
  rw [mem_reachSet_iff hun, mem_reachSet_iff hv]
  constructor
  · rintro ⟨hw, h⟩
    exact ⟨hw, hvu.trans h⟩
  · rintro ⟨hw, h⟩
    exact ⟨hw, (reach_symm hvu).trans h⟩

theorem reachSet_disjoint {G : Graph} {v w : ℕ} (hv : v ∈ G.nodes)
    (hw : w ∈ G.nodes) (hne : reachSet G v ≠ reachSet G w) :
    Disjoint (reachSet G v) (reachSet G w) := by
  rw [Finset.disjoint_left]
  intro u huv huw
  exact hne ((reachSet_eq_of_mem hv huv).symm.trans (reachSet_eq_of_mem hw huw))

theorem isComponent_reachSet {G : Graph} {v : ℕ} (hv : v ∈ G.nodes) :
    IsComponent G (reachSet G v) :=
  ⟨v, hv, fun _ => mem_reachSet_iff hv⟩

theorem isComponent_iff {G : Graph} {c : Finset ℕ} :
    IsComponent G c ↔ ∃ v ∈ G.nodes, reachSet G v = c := by
  constructor
  · rintro ⟨v, hv, hchar⟩
    refine ⟨v, hv, ?_⟩
    ext u
    rw [mem_reachSet_iff hv, hchar u]
  · rintro ⟨v, hv, rfl⟩
    exact isComponent_reachSet hv

theorem mem_nodeList {s : Finset ℕ} {a : ℕ} : a ∈ nodeList s ↔ a ∈ s := by
  simp only [nodeList, List.mem_filter, List.mem_range, decide_eq_true_eq]
  exact ⟨fun h => h.2, fun h => ⟨Nat.lt_succ_of_le (Finset.le_sup (f := id) h), h⟩⟩

theorem mem_components {G : Graph} {c : Finset ℕ} :
    c ∈ components G ↔ ∃ v ∈ G.nodes, reachSet G v = c := by
  simp [components, List.mem_dedup, List.mem_map, mem_nodeList]

theorem components_nodup (G : Graph) : (components G).Nodup :=
  List.nodup_dedup _

theorem components_pairwise_disjoint (G : Graph) :
    (components G).Pairwise (fun a b => Disjoint a b) := by
  refine (components_nodup G).imp_of_mem ?_
  intro a b ha hb hne
  obtain ⟨v, hv, rfl⟩ := mem_components.mp ha
  obtain ⟨w, hw, rfl⟩ := mem_components.mp hb
  exact reachSet_disjoint hv hw hne

theorem components_subset_nodes {G : Graph} {c : Finset ℕ}
    (hc : c ∈ components G) : c ⊆ G.nodes := by
  obtain ⟨v, hv, rfl⟩ := mem_components.mp hc
  exact fun u hu => ((mem_reachSet_iff hv).mp hu).1

theorem isComponent_mem_components {G : Graph} {c : Finset ℕ}
    (h : IsComponent G c) : c ∈ components G :=
  mem_components.mpr (isComponent_iff.mp h)

theorem enumFrom_filter_map {α β : Type _} (p : α → Bool) (g : α → β) :
    ∀ (n : ℕ) (l : List α),
      ((List.enumFrom n l).filter (fun x => p x.2)).map (fun x => g x.2) =
        (l.filter p).map g := by
  intro n l
  induction l generalizing n with
  | nil => rfl
  | cons a t ih =>
    by_cases h : p a <;>
      simp [List.enumFrom, List.filter_cons, h, ih]

theorem detect_communities_perm (G : Graph) :
    (detect_communities G).Perm
      (((components G).enum.filter (fun p => 4 ≤ p.2.card)).map
        (fun p => mkReport G p.1 p.2)) :=
  List.perm_insertionSort _ _

theorem members_map_perm (G : Graph) :
    ((detect_communities G).map (fun r => r.members)).Perm
      ((components G).filter (fun c => 4 ≤ c.card)) := by
  have hp := (detect_communities_perm G).map (fun r => r.members)
  have he : (((components G).enum.filter (fun p => 4 ≤ p.2.card)).map
      (fun p => mkReport G p.1 p.2)).map (fun r => r.members) =
      (components G).filter (fun c => 4 ≤ c.card) := by
    rw [List.map_map]
    have h2 := enumFrom_filter_map (p := fun c : Finset ℕ => decide (4 ≤ c.card))
      (g := fun c : Finset ℕ => c) 0 (components G)
    simpa [Function.comp_def, mkReport, List.enum] using h2
  exact he ▸ hp

theorem snd_mem_enumFrom {α : Type _} :
    ∀ (l : List α) (n : ℕ) (p : ℕ × α), p ∈ List.enumFrom n l → p.2 ∈ l := by
  intro l
  induction l with
  | nil => simp [List.enumFrom]
  | cons a t ih =>
    intro n p hp
    simp only [List.enumFrom, List.mem_cons] at hp
    rcases hp with rfl | hp
    · exact List.mem_cons_self a t
    · exact List.mem_cons_of_mem a (ih (n + 1) p hp)

theorem mem_detect_communities {G : Graph} {r : CommunityReport}
    (hr : r ∈ detect_communities G) :
    ∃ i c, c ∈ components G ∧ 4 ≤ c.card ∧ r = mkReport G i c := by
  have hm := (detect_communities_perm G).mem_iff.mp hr
  rw [List.mem_map] at hm
  obtain ⟨p, hp, hrp⟩ := hm
  rw [List.mem_filter] at hp
  refine ⟨p.1, p.2, snd_mem_enumFrom _ _ _ hp.1, by simpa using hp.2, hrp.symm⟩

/-- C1: `detect_communities` returns exactly the connected components of
the undirected graph having at least 4 members: every component of size
at least 4 appears as exactly one report, every report is such a
component (so none of size below 4 appears), the reported member sets
are pairwise disjoint, and every reported member set is contained in the
node set of the graph. -/
theorem detect_communities_components_spec (G : Graph) :
    (∀ c : Finset ℕ, IsComponent G c → 4 ≤ c.card →
      ((detect_communities G).map (fun r => r.members)).count c = 1)
    ∧ (∀ r ∈ detect_communities G, IsComponent G r.members ∧ 4 ≤ r.members.card)
    ∧ ((detect_communities G).map (fun r => r.members)).Pairwise
        (fun a b => Disjoint a b)
    ∧ ∀ r ∈ detect_communities G, r.members ⊆ G.nodes := by
  have hperm := members_map_perm G
  have key : ∀ r ∈ detect_communities G,
      r.members ∈ (components G).filter (fun c => 4 ≤ c.card) := by
    intro r hr
    rw [← hperm.mem_iff]
    exact List.mem_map_of_mem _ hr
  refine ⟨?_, ?_, ?_, ?_⟩
  · intro c hcomp hcard
    rw [hperm.count_eq]
    refine List.count_eq_one_of_mem ((components_nodup G).filter _) ?_
    rw [List.mem_filter]
    exact ⟨isComponent_mem_components hcomp, by simpa using hcard⟩
  · intro r hr
    have hm := key r hr
    rw [List.mem_filter] at hm
    obtain ⟨v, hv, hveq⟩ := mem_components.mp hm.1
    exact ⟨hveq ▸ isComponent_reachSet hv, by simpa using hm.2⟩
  · exact (hperm.pairwise_iff (by intro a b h; exact h.symm)).mpr
      ((components_pairwise_disjoint G).filter _)
  · intro r hr
    exact components_subset_nodes (List.mem_of_mem_filter (key r hr))

theorem detect_communities_components_spec_witness :
    ((detect_communities pathGraph4).map (fun r => r.members)).count
      (reachSet pathGraph4 0) = 1 :=
  (detect_communities_components_spec pathGraph4).1 (reachSet pathGraph4 0)
    (isComponent_reachSet (by decide)) (by decide)

/-- C10: a community with fewer than 2 members scores exactly 0, no
matter what its attributes are: the early return on line 89-90 of
fraud_detection.py fires before any factor is applied. -/
theorem community_risk_score_small_community (G : Graph) (c : Finset ℕ)
    (h : c.card < 2) : calculate_community_risk_score G c = 0 := by
  unfold calculate_community_risk_score
  rw [if_pos h]

theorem community_risk_score_small_community_witness :
    ({7} : Finset ℕ).card < 2 ∧
      calculate_community_risk_score flaggedSingletonGraph {7} = 0 :=
  ⟨by decide,
    community_risk_score_small_community flaggedSingletonGraph {7} (by decide)⟩

theorem calc_risk_eq_spec {G : Graph} {c : Finset ℕ} (hsub : c ⊆ G.nodes)
    (h2 : 2 ≤ c.card) :
    calculate_community_risk_score G c =
      specRiskScore (flaggedCount G c) (fraudCount G c) (internalEdges G c)
        c.card := by
  have hn : c ∩ G.nodes = c := Finset.inter_eq_left.mpr hsub
  have hc1 : ¬c.card < 2 := by omega
  have hc2 : 1 < c.card := by omega
  simp only [calculate_community_risk_score, specRiskScore, flaggedFactor,
    fraudFactor, densityFactor, sizeBonus, nxDensity, hn,
    if_neg hc1, if_pos hc2, if_pos h2]
  congr 1
  have hd : (if internalEdges G c = 0 ∨ c.card ≤ 1 then (0 : ℚ)
      else (internalEdges G c : ℚ) / ((c.card : ℚ) * ((c.card : ℚ) - 1)) * 2) =
      2 * (internalEdges G c : ℚ) / ((c.card : ℚ) * ((c.card : ℚ) - 1)) := by
    rcases eq_or_ne (internalEdges G c) 0 with h0 | h0
    · simp [h0]
    · rw [if_neg (by push_neg; exact ⟨h0, by omega⟩), div_mul_eq_mul_div,
        mul_comm]
  rw [hd]

/-- C2: for every community retained by `detect_communities`, the
reported risk score equals the spec formula evaluated on the reported
flagged count, fraud count, internal-edge count and size. -/
theorem community_risk_score_formula (G : Graph) (r : CommunityReport)
    (hr : r ∈ detect_communities G) :
    r.risk_score =
      specRiskScore r.flagged_count r.fraud_count (internalEdges G r.members)
        r.size := by
  obtain ⟨i, c, hc, hcard, rfl⟩ := mem_detect_communities hr
  exact calc_risk_eq_spec (components_subset_nodes hc) (by omega)

set_option maxHeartbeats 2000000 in
theorem community_risk_score_formula_witness :
    (mkReport pathGraph4 0 (reachSet pathGraph4 0)).risk_score =
      specRiskScore (mkReport pathGraph4 0 (reachSet pathGraph4 0)).flagged_count
        (mkReport pathGraph4 0 (reachSet pathGraph4 0)).fraud_count
        (internalEdges pathGraph4 (mkReport pathGraph4 0 (reachSet pathGraph4 0)).members)
        (mkReport pathGraph4 0 (reachSet pathGraph4 0)).size :=
  community_risk_score_formula pathGraph4 _ (by with_unfolding_all decide)

theorem round2_mono {a b : ℚ} (h : a ≤ b) : round2 a ≤ round2 b := by
  unfold round2
  have hr : round (a * 100) ≤ round (b * 100) := by
    rw [round_eq, round_eq]
    exact Int.floor_le_floor (by linarith)
  have : ((round (a * 100) : ℤ) : ℚ) ≤ ((round (b * 100) : ℤ) : ℚ) :=
    Int.cast_le.mpr hr
  linarith

theorem flaggedCount_mono {G G' : Graph} (c : Finset ℕ)
    (h : ∀ n, G.flagged n = true → G'.flagged n = true) :
    flaggedCount G c ≤ flaggedCount G' c := by
  unfold flaggedCount
  exact Finset.card_le_card
    (Finset.monotone_filter_right c (fun n hn => h n hn))

theorem fraudCount_mono {G G' : Graph} (c : Finset ℕ)
    (h : ∀ n, G.is_fraud n = true → G'.is_fraud n = true) :
    fraudCount G c ≤ fraudCount G' c := by
  unfold fraudCount
  exact Finset.card_le_card
    (Finset.monotone_filter_right c (fun n hn => h n hn))

theorem nxDensity_congr {G G' : Graph} (c : Finset ℕ)
    (hnodes : G'.nodes = G.nodes) (hedges : G'.edges = G.edges) :
    nxDensity G' c = nxDensity G c := by
  unfold nxDensity internalEdges
  rw [hnodes, hedges]

theorem flaggedFactor_le (G : Graph) (c : Finset ℕ) : flaggedFactor G c ≤ 30 :=
  min_le_right _ _

theorem fraudFactor_le (G : Graph) (c : Finset ℕ) : fraudFactor G c ≤ 40 :=
  min_le_right _ _

theorem sizeBonus_le (c : Finset ℕ) : sizeBonus c ≤ 10 := by
  unfold sizeBonus
  split_ifs <;> norm_num

/-- No self-loop among the edges internal to `c` forces the subgraph
edge count below `n * (n - 1) / 2`, hence density at most 1. -/
theorem internalEdges_le_of_no_loops {G : Graph} {c : Finset ℕ}
    (hnl : ∀ e ∈ G.edges, ¬e.IsDiag) :
    2 * internalEdges G c ≤ (c ∩ G.nodes).card * ((c ∩ G.nodes).card - 1) := by
  set s := c ∩ G.nodes with hs
  set n := s.card with hn
  have hsub : G.edges.filter (fun e => e ∈ s.sym2) ⊆
      s.sym2.filter (fun e => ¬e.IsDiag) := by
    intro e he
    rw [Finset.mem_filter] at he ⊢
    exact ⟨he.2, hnl e he.1⟩
  have hcard : internalEdges G c ≤ (s.sym2.filter (fun e => ¬e.IsDiag)).card :=
    Finset.card_le_card hsub
  have hdiag : (s.sym2.filter (fun e => e.IsDiag)).card = n := by
    have himg : s.sym2.filter (fun e => e.IsDiag) = s.image Sym2.diag := by
      ext e
      rw [Finset.mem_filter, Finset.mem_image]
      constructor
      · rintro ⟨he, hd⟩
        obtain ⟨a, ha⟩ := hd.mem_range_diag
        refine ⟨a, ?_, ha⟩
        have hae : a ∈ e := by
          rw [← ha]
          exact Sym2.mem_mk_left a a
        exact Finset.mem_sym2_iff.mp he a hae
      · rintro ⟨a, ha, rfl⟩
        refine ⟨?_, Sym2.diag_isDiag a⟩
        rw [Finset.mem_sym2_iff]
        intro y hy
        have hya : y = a := by
          have hy2 : y ∈ s(a, a) := hy
          rcases Sym2.mem_iff.mp hy2 with h | h <;> exact h
        rwa [hya]
    rw [himg, Finset.card_image_of_injective _ Sym2.diag_injective]
  have hsplit : (s.sym2.filter (fun e => e.IsDiag)).card +
      (s.sym2.filter (fun e => ¬e.IsDiag)).card = s.sym2.card :=
    Finset.filter_card_add_filter_neg_card_eq_card _
  have hsym2 : s.sym2.card = Nat.choose (n + 1) 2 := Finset.card_sym2 s
  have hchoose : Nat.choose (n + 1) 2 = (n + 1) * n / 2 := by
    rw [Nat.choose_two_right, Nat.add_sub_cancel]
  have hsym : s.sym2.card = (n + 1) * n / 2 := by rw [hsym2, hchoose]
  obtain ⟨k, hk⟩ := Nat.even_mul_succ_self n
  have hk2 : (n + 1) * n = k + k := by
    rw [mul_comm]
    exact hk
  have hA : (n + 1) * n = n * n + n := by ring
  have hB : n * n = n * (n - 1) + n := by
    cases n with
    | zero => simp
    | succ m =>
      have h1 : (m + 1) * (m + 1) = (m + 1) * m + (m + 1) := by ring
      have h2 : (m + 1) - 1 = m := rfl
      rw [h2]
      omega
  omega

theorem densityFactor_le_of_no_loops (G : Graph) (c : Finset ℕ)
    (hnl : ∀ e ∈ G.edges, ¬e.IsDiag) : densityFactor G c ≤ 20 := by
  simp only [densityFactor, nxDensity]
  split_ifs with h1 h2
  · norm_num
  · have hb := internalEdges_le_of_no_loops (c := c) hnl
    set n := (c ∩ G.nodes).card with hn
    push_neg at h2
    have hn2 : 2 ≤ n := by omega
    have hpos : (0 : ℚ) < (n : ℚ) * ((n : ℚ) - 1) := by
      have h1q : (1 : ℚ) ≤ (n : ℚ) - 1 := by
        have h2q : (2 : ℚ) ≤ (n : ℚ) := by exact_mod_cast hn2
        linarith
      nlinarith
    have hnum : (internalEdges G c : ℚ) * 2 ≤ (n : ℚ) * ((n : ℚ) - 1) := by
      have hq : ((2 * internalEdges G c : ℕ) : ℚ) ≤ ((n * (n - 1) : ℕ) : ℚ) :=
        Nat.cast_le.mpr hb
      push_cast at hq
      rw [Nat.cast_sub (by omega)] at hq
      push_cast at hq
      linarith
    have hdle : (internalEdges G c : ℚ) / ((n : ℚ) * ((n : ℚ) - 1)) * 2 ≤ 1 := by
      rw [div_mul_eq_mul_div, div_le_one hpos]
      linarith
    linarith
  · norm_num

/-- C7 (amended): the community risk score is monotonically
non-decreasing in the flagged count and in the fraud count when all
other inputs are held fixed; the flagged factor never exceeds 30, the
fraud factor never exceeds 40, the size bonus never exceeds 10, and the
density factor never exceeds 20 provided the graph has no self-loop
edges (with self-loops `networkx` density may exceed 1, so that factor
is unbounded in general). -/
theorem community_risk_monotone_and_caps :
    (∀ G G' : Graph, ∀ c : Finset ℕ,
      G'.nodes = G.nodes → G'.edges = G.edges → G'.is_fraud = G.is_fraud →
      (∀ n, G.flagged n = true → G'.flagged n = true) →
      calculate_community_risk_score G c ≤ calculate_community_risk_score G' c)
    ∧ (∀ G G' : Graph, ∀ c : Finset ℕ,
      G'.nodes = G.nodes → G'.edges = G.edges → G'.flagged = G.flagged →
      (∀ n, G.is_fraud n = true → G'.is_fraud n = true) →
      calculate_community_risk_score G c ≤ calculate_community_risk_score G' c)
    ∧ (∀ G : Graph, ∀ c : Finset ℕ, flaggedFactor G c ≤ 30)
    ∧ (∀ G : Graph, ∀ c : Finset ℕ, fraudFactor G c ≤ 40)
    ∧ (∀ c : Finset ℕ, sizeBonus c ≤ 10)
    ∧ (∀ G : Graph, ∀ c : Finset ℕ, (∀ e ∈ G.edges, ¬e.IsDiag) →
        densityFactor G c ≤ 20) := by
  refine ⟨?_, ?_, flaggedFactor_le, fraudFactor_le, sizeBonus_le,
    densityFactor_le_of_no_loops⟩
  · intro G G' c hnodes hedges hfraud hflag
    unfold calculate_community_risk_score
    split_ifs with h2
    · exact le_rfl
    · apply round2_mono
      have hf1 : flaggedFactor G c ≤ flaggedFactor G' c := by
        unfold flaggedFactor
        refine min_le_min ?_ le_rfl
        have := flaggedCount_mono c hflag
        have hq : ((flaggedCount G c : ℕ) : ℚ) ≤ ((flaggedCount G' c : ℕ) : ℚ) :=
          Nat.cast_le.mpr this
        nlinarith
      have hf2 : fraudFactor G' c = fraudFactor G c := by
        unfold fraudFactor fraudCount
        rw [hfraud]
      have hf3 : densityFactor G' c = densityFactor G c := by
        unfold densityFactor
        rw [nxDensity_congr c hnodes hedges]
      rw [hf2, hf3]
      linarith
  · intro G G' c hnodes hedges hflag hfraud
    unfold calculate_community_risk_score
    split_ifs with h2
    · exact le_rfl
    · apply round2_mono
      have hf2 : fraudFactor G c ≤ fraudFactor G' c := by
        unfold fraudFactor
        refine min_le_min ?_ le_rfl
        have := fraudCount_mono c hfraud
        have hq : ((fraudCount G c : ℕ) : ℚ) ≤ ((fraudCount G' c : ℕ) : ℚ) :=
          Nat.cast_le.mpr this
        nlinarith
      have hf1 : flaggedFactor G' c = flaggedFactor G c := by
        unfold flaggedFactor flaggedCount
        rw [hflag]
      have hf3 : densityFactor G' c = densityFactor G c := by
        unfold densityFactor
        rw [nxDensity_congr c hnodes hedges]
      rw [hf1, hf3]
      linarith

theorem community_risk_monotone_and_caps_witness :
    calculate_community_risk_score pathGraph4 {0, 1, 2, 3} ≤
      calculate_community_risk_score pathGraph4Flagged {0, 1, 2, 3} :=
  community_risk_monotone_and_caps.1 pathGraph4 pathGraph4Flagged {0, 1, 2, 3}
    rfl rfl rfl (fun _ _ => rfl)

/-- C7 counterexample: with self-loops, the density contribution is not
capped at 20 — on `loopGraph2` the two-node community has `networkx`
density 3, so the density factor is 60 and the whole risk score is 60. -/
theorem community_density_cap_counterexample :
    ¬(densityFactor loopGraph2 {0, 1} ≤ 20) ∧
      calculate_community_risk_score loopGraph2 {0, 1} = 60 := by
  with_unfolding_all decide

theorem risk_level_chain (s : ℕ) :
    ((if s ≥ 60 then "HIGH" else if s ≥ 30 then "MEDIUM" else "LOW") = "HIGH"
        ↔ 60 ≤ s)
    ∧ ((if s ≥ 60 then "HIGH" else if s ≥ 30 then "MEDIUM" else "LOW") = "MEDIUM"
        ↔ 30 ≤ s ∧ s < 60)
    ∧ ((if s ≥ 60 then "HIGH" else if s ≥ 30 then "MEDIUM" else "LOW") = "LOW"
        ↔ s < 30) := by
  refine ⟨?_, ?_, ?_⟩ <;> split_ifs with h1 h2 <;> simp_all <;> omega

/-- C3: when the context query returns at least one row,
`calculate_claim_risk_score` reports a score that is exactly the sum of
25 for a flagged shop, 25 for a flagged provider, 20 for a flagged
attorney and 30 for a flagged phone; the risk level is HIGH exactly when
the score reaches 60, MEDIUM exactly between 30 and 59, LOW otherwise;
and a claim with only a flagged shop and flagged phone scores exactly 55
with level MEDIUM. -/
theorem claim_risk_score_spec (cid : String) (ctx : ClaimContextRow)
    (rest : List ClaimContextRow) :
    ∃ rep, calculate_claim_risk_score cid (some (ctx :: rest)) = some rep
      ∧ rep.risk_score =
          (if truthy ctx.shop_flagged then 25 else 0) +
          (if truthy ctx.provider_flagged then 25 else 0) +
          (if truthy ctx.attorney_flagged then 20 else 0) +
          (if truthy ctx.phone_flagged then 30 else 0)
      ∧ (rep.risk_level = "HIGH" ↔ 60 ≤ rep.risk_score)
      ∧ (rep.risk_level = "MEDIUM" ↔ 30 ≤ rep.risk_score ∧ rep.risk_score < 60)
      ∧ (rep.risk_level = "LOW" ↔ rep.risk_score < 30)
      ∧ (truthy ctx.shop_flagged = true → truthy ctx.phone_flagged = true →
          truthy ctx.provider_flagged = false →
          truthy ctx.attorney_flagged = false →
          rep.risk_score = 55 ∧ rep.risk_level = "MEDIUM") := by
  refine ⟨_, rfl, rfl, (risk_level_chain _).1, (risk_level_chain _).2.1,
    (risk_level_chain _).2.2, ?_⟩
  intro hs hp hpr hat
  constructor
  · show (if truthy ctx.shop_flagged then 25 else 0) +
      (if truthy ctx.provider_flagged then 25 else 0) +
      (if truthy ctx.attorney_flagged then 20 else 0) +
      (if truthy ctx.phone_flagged then 30 else 0) = 55
    rw [hs, hp, hpr, hat]
    decide
  · show (if _ ≥ 60 then "HIGH" else if _ ≥ 30 then "MEDIUM" else "LOW") = "MEDIUM"
    rw [hs, hp, hpr, hat]
    decide

theorem claim_risk_score_spec_witness :
    ∃ rep, calculate_claim_risk_score "CLM-1" (some [ctxShopPhone]) = some rep
      ∧ rep.risk_score = 55 ∧ rep.risk_level = "MEDIUM" := by
  obtain ⟨rep, h1, _, _, _, _, h6⟩ :=
    claim_risk_score_spec "CLM-1" ctxShopPhone []
  obtain ⟨hsc, hlv⟩ := h6 rfl rfl rfl rfl
  exact ⟨rep, h1, hsc, hlv⟩

/-- C9: the code violates the claim.  With a connected source and a
claim id matching no rows, `run_query` returns the empty agraph
dictionary — truthy, because it always holds its two keys — so the
`if not context` guard at fraud_detection.py line 268 does not fire, and
`ctx = context[0]` at line 271 raises `KeyError: 0`: the function raises
instead of ever returning the absent result `None`. -/
theorem claim_risk_score_no_rows_keyerror (cid : String) :
    run_query true [] = .ok (some { nodes := [], edges := [] })
    ∧ calculate_claim_risk_score_from_source cid true [] =
        .error (.keyError "0") :=
  ⟨rfl, rfl⟩

/-- C8 counterexample: with the source unavailable, `run_query` returns
`None` (neo4j_utils.py line 23) and the analysis returns the ordinary
absent result — a normal return carrying Python `None`, not a propagated
failure. -/
theorem source_unavailable_counterexample :
    run_query false [] = .ok none
    ∧ calculate_claim_risk_score_from_source "CLM-1" false [] = .ok none :=
  ⟨rfl, rfl⟩

/-- C8 (amended): when the `GraphSource` boundary cannot be reached,
`run_query` returns `None` (neo4j_utils.py line 23) and
`calculate_claim_risk_score` then returns the plain absent result `None`
through the falsy-context guard (fraud_detection.py lines 268-269): no
explicit failure is propagated to the caller. -/
theorem source_unavailable_silent (cid : String)
    (records : List ClaimContextRow) :
    run_query false records = .ok none
    ∧ calculate_claim_risk_score_from_source cid false records = .ok none :=
  ⟨rfl, rfl⟩

/-- C6: risk levels of the collusion patterns: a repair-shop clustering
match is HIGH exactly when its connected-claimant count exceeds 5, and
MEDIUM otherwise; a medical-mill match is always HIGH; an
attorney-steering match (whose query guarantees more than 4 distinct
claimants) is HIGH exactly when `uniqueShops / claimantCount < 0.3`, and
MEDIUM otherwise. -/
theorem collusion_pattern_risk_levels (shopRows : List ShopPatternRow)
    (medicalRows : List MedicalPatternRow)
    (attorneyRows : List AttorneyPatternRow)
    (hatt : ∀ p ∈ attorneyRows, 4 < p.connected_claimants) :
    (∀ q ∈ detect_collusion_patterns shopRows medicalRows attorneyRows,
      (q.pattern_type = "Repair Shop Clustering" →
        (q.risk_level = "HIGH" ↔ 5 < q.connected_count))
      ∧ (q.pattern_type = "Repair Shop Clustering" →
          ¬(q.risk_level = "HIGH") → q.risk_level = "MEDIUM")
      ∧ (q.pattern_type = "Medical Mill" → q.risk_level = "HIGH"))
    ∧ ∀ p ∈ attorneyRows,
        ((attorneyMatch p).risk_level = "HIGH" ↔
          (p.unique_shops : ℚ) / (p.connected_claimants : ℚ) < 3 / 10)
        ∧ (¬((attorneyMatch p).risk_level = "HIGH") →
            (attorneyMatch p).risk_level = "MEDIUM") := by
  constructor
  · intro q hq
    unfold detect_collusion_patterns at hq
    rw [List.mem_append, List.mem_append] at hq
    rcases hq with (hq | hq) | hq <;> rw [List.mem_map] at hq <;>
      obtain ⟨p, _, rfl⟩ := hq
    · refine ⟨fun _ => ?_, fun _ hnh => ?_, fun h => ?_⟩
      · show (if p.connected_claimants > 5 then "HIGH" else "MEDIUM") = "HIGH"
          ↔ 5 < p.connected_claimants
        split_ifs with h5
        · simp [h5]
        · simp only [Nat.not_lt] at h5
          constructor
          · intro hh
            exact absurd hh (by decide)
          · intro hh
            omega
      · show (if p.connected_claimants > 5 then "HIGH" else "MEDIUM") = "MEDIUM"
        by_cases h5 : p.connected_claimants > 5
        · refine absurd ?_ hnh
          show (if p.connected_claimants > 5 then "HIGH" else "MEDIUM") = "HIGH"
          rw [if_pos h5]
        · rw [if_neg h5]
      · simp [shopMatch] at h
    · refine ⟨fun h => ?_, fun h _ => ?_, fun _ => rfl⟩ <;>
        simp [medicalMatch] at h
    · refine ⟨fun h => ?_, fun h _ => ?_, fun h => ?_⟩ <;>
        simp [attorneyMatch] at h
  · intro p hp
    have h5 : 4 < p.connected_claimants := hatt p hp
    have hmax : max p.connected_claimants 1 = p.connected_claimants :=
      max_eq_left (by omega)
    constructor
    · show (if shopRatio p < 3 / 10 then "HIGH" else "MEDIUM") = "HIGH" ↔ _
      unfold shopRatio
      rw [hmax]
      split_ifs with hr
      · simp [hr]
      · constructor
        · intro hh
          exact absurd hh (by decide)
        · intro hh
          exact absurd hh hr
    · intro hnh
      show (if shopRatio p < 3 / 10 then "HIGH" else "MEDIUM") = "MEDIUM"
      by_cases hr : shopRatio p < 3 / 10
      · refine absurd ?_ hnh
        show (if shopRatio p < 3 / 10 then "HIGH" else "MEDIUM") = "HIGH"
        rw [if_pos hr]
      · rw [if_neg hr]

theorem collusion_pattern_risk_levels_witness :
    (attorneyMatch attorneyRow51).risk_level = "HIGH" ↔
      ((attorneyRow51.unique_shops : ℚ) /
        (attorneyRow51.connected_claimants : ℚ) < 3 / 10) :=
  ((collusion_pattern_risk_levels [shopRow6] [] [attorneyRow51]
      (by decide)).2 attorneyRow51 (by decide)).1

theorem add_node_edges (G : Graph) (r : NodeRec) :
    (add_node G r).edges = G.edges := rfl

theorem foldl_add_node_edges :
    ∀ (l : List NodeRec) (G : Graph), (l.foldl add_node G).edges = G.edges := by
  intro l
  induction l with
  | nil => intro G; rfl
  | cons r t ih =>
    intro G
    rw [List.foldl_cons, ih, add_node_edges]

theorem foldl_add_edge_rec_edges :
    ∀ (l : List EdgeRec) (G : Graph),
      (l.foldl add_edge_rec G).edges = G.edges ∪ (l.filterMap edgeOf).toFinset := by
  intro l
  induction l with
  | nil =>
    intro G
    simp
  | cons r t ih =>
    intro G
    rw [List.foldl_cons, ih]
    unfold add_edge_rec edgeOf
    rcases hsrc : r.source with _ | a <;> rcases htgt : r.target with _ | b <;>
      simp [List.filterMap_cons, hsrc, htgt, add_edge, Finset.insert_union,
        Finset.union_insert]

theorem edgesWf_add_node {G : Graph} (r : NodeRec) (h : EdgesWf G) :
    EdgesWf (add_node G r) := by
  intro e he x hx
  exact Finset.mem_insert_of_mem (h e he x hx)

theorem edgesWf_add_edge {G : Graph} (a b : ℕ) (rel : String) (h : EdgesWf G) :
    EdgesWf (add_edge G a b rel) := by
  intro e he x hx
  unfold add_edge at he ⊢
  rcases Finset.mem_insert.mp he with rfl | he
  · rcases Sym2.mem_iff.mp hx with rfl | rfl
    · exact Finset.mem_insert_self _ _
    · exact Finset.mem_insert_of_mem (Finset.mem_insert_self _ _)
  · exact Finset.mem_insert_of_mem (Finset.mem_insert_of_mem (h e he x hx))

theorem edgesWf_add_edge_rec {G : Graph} (r : EdgeRec) (h : EdgesWf G) :
    EdgesWf (add_edge_rec G r) := by
  unfold add_edge_rec
  rcases r.source with _ | a <;> rcases r.target with _ | b
  · exact h
  · exact h
  · exact h
  · exact edgesWf_add_edge a b r.rel_type h

theorem edgesWf_foldl_add_node :
    ∀ (l : List NodeRec) (G : Graph), EdgesWf G → EdgesWf (l.foldl add_node G) := by
  intro l
  induction l with
  | nil => exact fun G h => h
  | cons r t ih => exact fun G h => ih _ (edgesWf_add_node r h)

theorem edgesWf_foldl_add_edge_rec :
    ∀ (l : List EdgeRec) (G : Graph), EdgesWf G →
      EdgesWf (l.foldl add_edge_rec G) := by
  intro l
  induction l with
  | nil => exact fun G h => h
  | cons r t ih => exact fun G h => ih _ (edgesWf_add_edge_rec r h)

/-- C4 (amended): the builder adds one undirected edge per edge record
whose two endpoint ids are non-null — the edge set of the built graph is
exactly the edges of those records — and silently skips records with a
null endpoint; an edge whose endpoints match no node record is still
added, `networkx` implicitly creating the endpoint nodes, so every
edge's endpoints are nodes of the built graph, but the node set is not
limited to the ids introduced by node records. -/
theorem build_graph_edges_spec (nrs : List NodeRec) (ers : List EdgeRec) :
    (build_networkx_graph nrs ers).edges = (ers.filterMap edgeOf).toFinset
    ∧ (∀ r ∈ ers, (r.source = none ∨ r.target = none) → edgeOf r = none)
    ∧ EdgesWf (build_networkx_graph nrs ers) := by
  refine ⟨?_, ?_, ?_⟩
  · rw [build_networkx_graph, foldl_add_edge_rec_edges, foldl_add_node_edges]
    simp [emptyGraph]
  · intro r _ hnull
    unfold edgeOf
    rcases hsrc : r.source with _ | a <;> rcases htgt : r.target with _ | b <;>
      simp_all
  · exact edgesWf_foldl_add_edge_rec ers _
      (edgesWf_foldl_add_node nrs emptyGraph (by intro e he; simp [emptyGraph] at he))

/-- C4 counterexample: the edge record `(5, 6)` resolves to no node of
the single node record (id 0), yet the builder does not skip it — it
adds the edge and creates node 6 (and 5), so the built graph contains a
node no node record introduced. -/
theorem build_graph_counterexample :
    6 ∈ (build_networkx_graph [nodeRecA] [edgeRec56]).nodes
    ∧ (∀ r ∈ [nodeRecA], r.id ≠ 6)
    ∧ s(5, 6) ∈ (build_networkx_graph [nodeRecA] [edgeRec56]).edges := by
  decide

theorem build_graph_edges_spec_witness :
    (5 : ℕ) ∈ (build_networkx_graph [nodeRecA] [edgeRec56]).nodes :=
  (build_graph_edges_spec [nodeRecA] [edgeRec56]).2.2 s(5, 6) (by decide) 5
    (by decide)

theorem round4_mono {a b : ℚ} (h : a ≤ b) : round4 a ≤ round4 b := by
  unfold round4
  have hr : round (a * 10000) ≤ round (b * 10000) := by
    rw [round_eq, round_eq]
    exact Int.floor_le_floor (by linarith)
  have hq : ((round (a * 10000) : ℤ) : ℚ) ≤ ((round (b * 10000) : ℤ) : ℚ) :=
    Int.cast_le.mpr hr
  linarith

theorem round4_zero : round4 0 = 0 := by with_unfolding_all decide

theorem round4_one : round4 1 = 1 := by with_unfolding_all decide

theorem mem_calculate_node_centrality {G : Graph} {bw : ℕ → ℚ}
    {r : NodeCentralityRecord} :
    r ∈ calculate_node_centrality G bw ↔
      ∃ v ∈ G.nodes, r = mkCentralityRecord G bw v := by
  unfold calculate_node_centrality
  rw [(List.perm_insertionSort _ _).mem_iff, List.mem_map]
  constructor
  · rintro ⟨v, hv, h⟩
    exact ⟨v, mem_nodeList.mp hv, h.symm⟩
  · rintro ⟨v, hv, h⟩
    exact ⟨v, mem_nodeList.mpr hv, h.symm⟩

theorem degree_filter_subset {G : Graph} {v : ℕ}
    (hnl : ∀ e ∈ G.edges, ¬e.IsDiag) (hwf : G.edges ⊆ G.nodes.sym2) :
    G.edges.filter (fun e => v ∈ e) ⊆
      (G.nodes.erase v).image (fun u => s(v, u)) := by
  intro e he
  rw [Finset.mem_filter] at he
  revert he
  refine Sym2.ind (fun a b => ?_) e
  rintro ⟨he1, hmem⟩
  rw [Finset.mem_image]
  rcases Sym2.mem_iff.mp hmem with rfl | rfl
  · refine ⟨b, ?_, rfl⟩
    rw [Finset.mem_erase]
    refine ⟨?_, Finset.mem_sym2_iff.mp (hwf he1) b (Sym2.mem_mk_right _ _)⟩
    intro hbv
    exact hnl _ he1 (by rw [hbv]; exact Sym2.mk_isDiag_iff.mpr rfl)
  · refine ⟨a, ?_, Sym2.eq_swap⟩
    rw [Finset.mem_erase]
    refine ⟨?_, Finset.mem_sym2_iff.mp (hwf he1) a (Sym2.mem_mk_left _ _)⟩
    intro hav
    exact hnl _ he1 (by rw [hav]; exact Sym2.mk_isDiag_iff.mpr rfl)

theorem degree_le {G : Graph} {v : ℕ} (hnl : ∀ e ∈ G.edges, ¬e.IsDiag)
    (hwf : G.edges ⊆ G.nodes.sym2) (hv : v ∈ G.nodes) :
    degree G v ≤ G.nodes.card - 1 := by
  unfold degree
  have hloop : s(v, v) ∉ G.edges :=
    fun h => hnl _ h (Sym2.mk_isDiag_iff.mpr rfl)
  rw [if_neg hloop, add_zero]
  calc (G.edges.filter (fun e => v ∈ e)).card
      ≤ ((G.nodes.erase v).image (fun u => s(v, u))).card :=
        Finset.card_le_card (degree_filter_subset hnl hwf)
    _ ≤ (G.nodes.erase v).card := Finset.card_image_le
    _ = G.nodes.card - 1 := Finset.card_erase_of_mem hv

theorem degree_complete {G : Graph} {v : ℕ}
    (hnl : ∀ e ∈ G.edges, ¬e.IsDiag) (hwf : G.edges ⊆ G.nodes.sym2)
    (hcomp : ∀ a ∈ G.nodes, ∀ b ∈ G.nodes, a ≠ b → s(a, b) ∈ G.edges)
    (hv : v ∈ G.nodes) : degree G v = G.nodes.card - 1 := by
  unfold degree
  have hloop : s(v, v) ∉ G.edges :=
    fun h => hnl _ h (Sym2.mk_isDiag_iff.mpr rfl)
  rw [if_neg hloop, add_zero]
  have heq : G.edges.filter (fun e => v ∈ e) =
      (G.nodes.erase v).image (fun u => s(v, u)) := by
    refine Finset.Subset.antisymm (degree_filter_subset hnl hwf) ?_
    intro e he
    rw [Finset.mem_image] at he
    obtain ⟨u, hu, rfl⟩ := he
    rw [Finset.mem_erase] at hu
    rw [Finset.mem_filter]
    exact ⟨hcomp v hv u hu.2 (Ne.symm hu.1), Sym2.mem_mk_left v u⟩
  rw [heq,
    Finset.card_image_of_injective _ (fun u1 u2 h => Sym2.congr_right.mp h),
    Finset.card_erase_of_mem hv]

/-- C5 (amended): the reported degree centrality of every node is the
4-decimal rounding of the `networkx` degree centrality — degree over
`n - 1` for `n ≥ 2`, and 1 (not 0) for every node of a graph with at
most one node; when the edges are well-formed and have no self-loops it
lies in `[0, 1]`; on a complete graph every node's reported degree
centrality equals 1. -/
theorem node_centrality_spec (G : Graph) (bw : ℕ → ℚ) :
    (∀ r ∈ calculate_node_centrality G bw,
      r.degree_centrality = round4 (degree_centrality G r.id))
    ∧ (G.nodes.card ≤ 1 → ∀ r ∈ calculate_node_centrality G bw,
        r.degree_centrality = 1)
    ∧ ((∀ e ∈ G.edges, ¬e.IsDiag) → G.edges ⊆ G.nodes.sym2 →
        ∀ r ∈ calculate_node_centrality G bw,
          0 ≤ r.degree_centrality ∧ r.degree_centrality ≤ 1)
    ∧ ((∀ e ∈ G.edges, ¬e.IsDiag) → G.edges ⊆ G.nodes.sym2 →
        (∀ a ∈ G.nodes, ∀ b ∈ G.nodes, a ≠ b → s(a, b) ∈ G.edges) →
        2 ≤ G.nodes.card →
        ∀ r ∈ calculate_node_centrality G bw, r.degree_centrality = 1) := by
  refine ⟨?_, ?_, ?_, ?_⟩
  · intro r hr
    obtain ⟨v, hv, rfl⟩ := mem_calculate_node_centrality.mp hr
    rfl
  · intro h1 r hr
    obtain ⟨v, hv, rfl⟩ := mem_calculate_node_centrality.mp hr
    show round4 (degree_centrality G v) = 1
    unfold degree_centrality
    rw [if_pos h1]
    exact round4_one
  · intro hnl hwf r hr
    obtain ⟨v, hv, rfl⟩ := mem_calculate_node_centrality.mp hr
    show 0 ≤ round4 (degree_centrality G v) ∧ round4 (degree_centrality G v) ≤ 1
    have h01 : 0 ≤ degree_centrality G v ∧ degree_centrality G v ≤ 1 := by
      unfold degree_centrality
      split_ifs with h1
      · norm_num
      · push_neg at h1
        have h2 : 2 ≤ G.nodes.card := h1
        have h2q : (2 : ℚ) ≤ (G.nodes.card : ℚ) := by exact_mod_cast h2
        have hdeg := degree_le hnl hwf hv
        have hq : ((degree G v : ℕ) : ℚ) ≤ ((G.nodes.card - 1 : ℕ) : ℚ) :=
          Nat.cast_le.mpr hdeg
        rw [Nat.cast_sub (by omega)] at hq
        constructor
        · exact div_nonneg (Nat.cast_nonneg _) (by linarith)
        · rw [div_le_one (by linarith)]
          simpa using hq
    constructor
    · have h0 := round4_mono h01.1
      rwa [round4_zero] at h0
    · have h1 := round4_mono h01.2
      rwa [round4_one] at h1
  · intro hnl hwf hcomp h2 r hr
    obtain ⟨v, hv, rfl⟩ := mem_calculate_node_centrality.mp hr
    show round4 (degree_centrality G v) = 1
    have hdc : degree_centrality G v = 1 := by
      unfold degree_centrality
      rw [if_neg (by omega), degree_complete hnl hwf hcomp hv,
        Nat.cast_sub (by omega)]
      have hne : (G.nodes.card : ℚ) - 1 ≠ 0 := by
        have h2q : (2 : ℚ) ≤ (G.nodes.card : ℚ) := by exact_mod_cast h2
        intro h0
        linarith
      simpa using div_self hne
    rw [hdc]
    exact round4_one

/-- C5 counterexample: on a singleton graph the reported degree
centrality is 1, not 0 (the `networkx` convention), and with a self-loop
the reported degree centrality of node 0 is 3, outside `[0, 1]` (a
self-loop adds 2 to the `networkx` degree). -/
theorem node_centrality_counterexample :
    ((calculate_node_centrality singletonGraph (fun _ => 0)).map
        (fun r => r.degree_centrality) = [1])
    ∧ ((calculate_node_centrality selfLoopGraph (fun _ => 0)).map
        (fun r => r.degree_centrality) = [3, 1])
    ∧ ¬((1 : ℚ) = 0) ∧ ¬((3 : ℚ) ≤ 1) := by
  with_unfolding_all decide

set_option maxHeartbeats 2000000 in
theorem node_centrality_spec_witness :
    (mkCentralityRecord completeGraph4 (fun _ => 0) 0).degree_centrality = 1 :=
  (node_centrality_spec completeGraph4 (fun _ => 0)).2.2.2 (by decide)
    (by decide) (by decide) (by decide) _ (by with_unfolding_all decide)

end FraudDemo
